import Mathlib

/-!
Verification of the uKids scheduling engine (src/app_fixed.py, section
"ukids_scheduler_app"): the eligibility/preference builder `build_long_df`,
the three scheduling passes inside `assign_roles` (primary pass,
extra Group A pass, extra Group B pass), and the helper functions
`base_max_for_person` and `is_ukids_leader`.

Shallow embedding conventions:
- Python strings are Lean `String`; the Python string operations used by the
  source (strip, lower, upper + regex letter tokenization, substring test)
  are re-implemented below on the character list.
- pandas cell values that the source feeds to pd.to_numeric are modelled as
  `Option Rat`: `none` is a missing/non-numeric cell (to_numeric yields NaN),
  `some q` a numeric value.  Python's round() (round-half-to-even) is
  modelled exactly on `Rat`.
- Python dicts used only through lookup are modelled as functions
  (`role_codes : String -> Option Flags`, assignment counts); the
  availability dict, whose key iteration order matters in the two extra
  passes, is modelled as an association list in insertion order.
- `schedule_cells` (a defaultdict(list) keyed by (role, date)) is modelled
  as the list of append events ((role, date), person) in append order; the
  list of names of a cell is recovered by filtering.
- The places where the engine can raise are modelled with `Option`
  (`none` is a raised exception): the direct dict indexing role_codes[p]
  in the primary pass (KeyError), and the attribute access
  long_df.priority at the head of each primary date iteration, which
  raises AttributeError when build_long_df kept zero records, because a
  DataFrame built from an empty record list has no priority column.  All
  other loops of the engine are total.
-/

/-! ## Python string primitives -/

/-- Whitespace characters removed by Python str.strip (ASCII model). -/
def pyIsSpace (c : Char) : Bool :=
  c = ' ' || c = '\t' || c = '\n' || c = '\r' || c = '\x0b' || c = '\x0c'

/-- Python str.strip(): drop leading and trailing whitespace. -/
def pyStrip (s : String) : String :=
  ⟨((s.data.dropWhile pyIsSpace).reverse.dropWhile pyIsSpace).reverse⟩

/-- Python str.lower() (ASCII model). -/
def pyLower (s : String) : String := ⟨s.data.map Char.toLower⟩

/-- Is the character an ASCII uppercase letter. -/
def isUpperAZ (c : Char) : Bool := 'A' ≤ c && c ≤ 'Z'

/-- Tokenizer for re.findall of one-or-more letters over raw.upper():
maximal runs of letters of the uppercased string; `acc` holds the current
run reversed. -/
def tokensAux : List Char → List Char → List String
  | [], acc => if acc.isEmpty then [] else [⟨acc.reverse⟩]
  | c :: rest, acc =>
    let u := c.toUpper
    if isUpperAZ u then tokensAux rest (u :: acc)
    else if acc.isEmpty then tokensAux rest []
    else ⟨acc.reverse⟩ :: tokensAux rest []

/-- The uppercase letter tokens of a raw code string, in order
(re.findall of letter runs applied to raw.upper()). -/
def codeTokens (raw : String) : List String := tokensAux raw.data []

/-- Does `needle` occur at the start of `hay`. -/
def listStarts : List Char → List Char → Bool
  | [], _ => true
  | _ :: _, [] => false
  | a :: as, b :: bs => a == b && listStarts as bs

/-- Does `needle` occur as a contiguous run inside `hay`. -/
def listContains (needle : List Char) : List Char → Bool
  | [] => needle.isEmpty
  | b :: bs => listStarts needle (b :: bs) || listContains needle bs

/-- Python substring test: needle in hay. -/
def strIn (needle hay : String) : Bool := listContains needle.data hay.data

/-- Python round() on a rational: round half to even, as int(round(x)).
Computed on numerator and denominator so that it evaluates by decide. -/
def pyRound (q : Rat) : Int :=
  let den : Int := (q.den : Int)
  let f : Int := q.num.fdiv den
  let r2 : Int := q.num - f * den
  if 2 * r2 < den then f
  else if den < 2 * r2 then f + 1
  else if f % 2 = 0 then f else f + 1

/-! ## Flags and constants of the scheduler -/

/-- The flag dict built for each person from the code column: has_D, has_BL,
has_PL, has_EL, has_SL and the raw code string.  The default value (all
flags false) also stands for the empty dict that role_codes.get(p, ...)
returns for an unknown person. -/
structure Flags where
  has_D : Bool := false
  has_BL : Bool := false
  has_PL : Bool := false
  has_EL : Bool := false
  has_SL : Bool := false
  raw : String := ""
deriving Repr, DecidableEq

/-- One recognized token updates the flag dict; unrecognized tokens are
ignored. -/
def applyToken (f : Flags) (t : String) : Flags :=
  if t = "D" then { f with has_D := true }
  else if t = "BL" then { f with has_BL := true }
  else if t = "PL" then { f with has_PL := true }
  else if t = "EL" then { f with has_EL := true }
  else if t = "SL" then { f with has_SL := true }
  else f

/-- The flags parsed from a raw code cell (the codes loop of build_long_df). -/
def parseFlags (raw : String) : Flags :=
  (codeTokens raw).foldl applyToken { raw := raw }

/-- base_max_for_person: directors serve once per service, everyone else 1
by default. -/
def base_max_for_person (flags : Flags) : Nat :=
  if flags.has_D then 1 else 1

/-- is_ukids_leader: any of the four leader flags. -/
def is_ukids_leader (flags : Flags) : Bool :=
  flags.has_BL || flags.has_PL || flags.has_EL || flags.has_SL

/-- DIRECTOR_ALLOWED_ROLES. -/
def DIRECTOR_ALLOWED_ROLES : List String :=
  ["Babies Leader Age 1",
   "Babies Leader Age 2",
   "Pre-School Leader Age 3",
   "Pre-School Leader Age 4",
   "Pre-School Leader Age 5",
   "Elementary Leader Age 6",
   "Elementary Leader Age 7",
   "Elementary Leader Age 8",
   "uGroup Age 9",
   "uGroup Age 10",
   "uGroup Age 11",
   "Special Needs",
   "Brooklyn Babies Leader",
   "Brooklyn Pre-school Leader"]

/-- EXTRA_GROUP_A_ROWS. -/
def EXTRA_GROUP_A_ROWS : List String := ["Setup", "Info Desk", "Sound"]

/-- EXTRA_GROUP_B_ROWS. -/
def EXTRA_GROUP_B_ROWS : List String := ["Helping Ninja & Check in", "Hall Support"]

/-! ## Data prep: build_long_df -/

/-- One input row of the people table: the name cell (already stringified),
the raw codes cell, and for each role column name the numeric value that
pd.to_numeric extracts from the cell (none when missing or non-numeric). -/
structure Row where
  name : String
  codes : String
  cell : String → Option Rat

/-- One record of the long dataframe: person, role, priority. -/
structure Pref where
  person : String
  role : String
  priority : Int
deriving Repr, DecidableEq

/-- The records one (kept) row contributes, iterating the role columns:
skip a non-numeric cell, round, keep priorities at least 1, and apply the
director restriction with this row's flags. -/
def rowRecords (flags : Flags) (person : String) (cell : String → Option Rat) :
    List String → List Pref
  | [] => []
  | role :: rest =>
    match cell role with
    | none => rowRecords flags person cell rest
    | some q =>
      let pr := pyRound q
      if 1 ≤ pr then
        if flags.has_D = true ∧ (pr ≠ 1 ∨ role ∉ DIRECTOR_ALLOWED_ROLES) then
          rowRecords flags person cell rest
        else ⟨person, role, pr⟩ :: rowRecords flags person cell rest
      else rowRecords flags person cell rest

/-- Processing one row of build_long_df: drop rows with empty or "nan"
names, parse the flags, store them under the person's name (overwriting a
previous row of the same name, as dict assignment does) and append the
row's records. -/
def buildStep (cols : List String) (st : List Pref × (String → Option Flags))
    (r : Row) : List Pref × (String → Option Flags) :=
  let person := pyStrip r.name
  if person = "" ∨ pyLower person = "nan" then st
  else
    let flags := parseFlags r.codes
    (st.1 ++ rowRecords flags person r.cell cols,
     fun q => if q = person then some flags else st.2 q)

/-- The row loop of build_long_df. -/
def buildRows (cols : List String) : List Row →
    List Pref × (String → Option Flags) → List Pref × (String → Option Flags)
  | [], st => st
  | r :: rest, st => buildRows cols rest (buildStep cols st r)

/-- build_long_df: the long preference list and the person-to-flags map. -/
def build_long_df (rows : List Row) (cols : List String) :
    List Pref × (String → Option Flags) :=
  buildRows cols rows ([], fun _ => none)

/-! ## Scheduling state -/

/-- The availability dict: for each person (keys in insertion order) the
per-date dict of booleans. -/
abbrev Avail : Type := List (String × List (String × Bool))

/-- availability.get(p, dict()).get(d, False). -/
def availGet (a : Avail) (p d : String) : Bool :=
  match List.lookup p a with
  | none => false
  | some m =>
    match List.lookup d m with
    | none => false
    | some b => b

/-- availability.keys(), in insertion order. -/
def availKeys (a : Avail) : List String := a.map Prod.fst

/-- The schedule_cells defaultdict as its list of append events
((role, date), person), in append order. -/
abbrev Cells : Type := List ((String × String) × String)

/-- The mutable run state of assign_roles: schedule_cells, assign_count and
the availability dict (threaded to express that no pass mutates it). -/
structure EngState where
  cells : Cells
  counts : String → Nat
  avail : Avail

/-- The names of one schedule cell. -/
def namesAt (cells : Cells) (key : String × String) : List String :=
  (cells.filter (fun e => decide (e.1 = key))).map (fun e => e.2)

/-- len(schedule_cells[key]). -/
def cellLen (cells : Cells) (key : String × String) : Nat :=
  (namesAt cells key).length

/-- The set of names appearing in cells of date d (assigned_today). -/
def todayNames (cells : Cells) (d : String) : List String :=
  (cells.filter (fun e => decide (e.1.2 = d))).map (fun e => e.2)

/-- How often a person appears among all append events. -/
def countEvents (cells : Cells) (p : String) : Nat :=
  (cells.filter (fun e => decide (e.2 = p))).length

/-- assign_count[p] += 1. -/
def bump (count : String → Nat) (p : String) : String → Nat :=
  fun q => if q = p then count q + 1 else count q

/-! ## Stable sorting (Python list.sort with a key is stable) -/

/-- Insert an element before the first list element it relates to. -/
def insertByLe (le : String → String → Bool) (a : String) :
    List String → List String
  | [] => [a]
  | b :: l => if le a b then a :: b :: l else b :: insertByLe le a l

/-- Stable insertion sort: with le comparing keys by less-or-equal this is
an ascending sort keeping equal-key elements in list order, which is what
Python's stable list.sort does. -/
def sortByLe (le : String → String → Bool) : List String → List String
  | [] => []
  | a :: l => insertByLe le a (sortByLe le l)

/-- Python code-point comparison of strings (strict less-than) on char
lists. -/
def ltCharList : List Char → List Char → Bool
  | [], [] => false
  | [], _ :: _ => true
  | _ :: _, [] => false
  | a :: as, b :: bs => if a < b then true else if b < a then false else ltCharList as bs

/-- Python less-or-equal on strings, as not greater-than. -/
def pyStrLe (a b : String) : Bool := !(ltCharList b.data a.data)

/-- sorted(df1.role.unique()): the distinct roles of the priority-1 frame
in ascending alphabetical order. -/
def sortedRoles (df1 : List Pref) : List String :=
  sortByLe pyStrLe ((df1.map (fun r => r.role)).dedup)

/-! ## Primary pass (step 1 of assign_roles) -/

/-- The comprehension that filters candidates by assign_count below
base_max_for_person(role_codes[p]): the direct dict indexing raises
(returns none) when a person has no entry in role_codes. -/
def filterCap (rc : String → Option Flags) (counts : String → Nat) :
    List String → Option (List String)
  | [] => some []
  | p :: l =>
    match rc p with
    | none => none
    | some f =>
      match filterCap rc counts l with
      | none => none
      | some l' =>
        some (if counts p < base_max_for_person f then p :: l' else l')

/-- One (role, date) step of the primary pass: candidates are the persons
with a priority-1 record for the role, filtered by availability and by the
cap; if any remain they are sorted ascending by current count (stably) and
the first is appended to the cell and his count bumped. -/
def primaryRoleStep (df1 : List Pref) (rc : String → Option Flags)
    (d role : String) (st : EngState) : Option EngState :=
  let cands0 := (df1.filter (fun r => decide (r.role = role))).map (fun r => r.person)
  let cands1 := cands0.filter (fun p => availGet st.avail p d)
  match filterCap rc st.counts cands1 with
  | none => none
  | some cands2 =>
    match sortByLe (fun a b => decide (st.counts a ≤ st.counts b)) cands2 with
    | [] => some st
    | chosen :: _ =>
      some { st with cells := st.cells ++ [((role, d), chosen)],
                     counts := bump st.counts chosen }

/-- The role loop of one date of the primary pass. -/
def primaryRoles (df1 : List Pref) (rc : String → Option Flags) (d : String) :
    List String → EngState → Option EngState
  | [], st => some st
  | role :: rest, st =>
    match primaryRoleStep df1 rc d role st with
    | none => none
    | some st' => primaryRoles df1 rc d rest st'

/-- The date loop of the primary pass; df1 (the priority-1 records) and the
sorted distinct roles are recomputed per date exactly as in the source.
When the long dataframe holds no records at all it has no priority column,
so the very first date iteration raises AttributeError at
long_df.priority (modelled as none); with no service dates the loop body
never runs and nothing is raised. -/
def primaryDates (ldf : List Pref) (rc : String → Option Flags) :
    List String → EngState → Option EngState
  | [], st => some st
  | d :: rest, st =>
    if ldf = [] then none
    else
      let df1 := ldf.filter (fun r => decide (r.priority = 1))
      match primaryRoles df1 rc d (sortedRoles df1) st with
      | none => none
      | some st' => primaryDates ldf rc rest st'

/-! ## Extra Group A pass -/

/-- Sort the candidates ascending by count and, if any, append the first to
the cell and bump his count (the shared tail of both extra passes). -/
def pickExtra (key : String × String) (cands : List String) (st : EngState) :
    EngState :=
  match sortByLe (fun a b => decide (st.counts a ≤ st.counts b)) cands with
  | [] => st
  | chosen :: _ =>
    { st with cells := st.cells ++ [(key, chosen)],
              counts := bump st.counts chosen }

/-- The Group A candidate loop over availability.keys(): skip directors,
the unavailable, those already assigned today (per the snapshot passed in),
and those at or above base + 1. -/
def groupACands (rc : String → Option Flags) (st : EngState)
    (d : String) (today : List String) : List String :=
  (availKeys st.avail).filter (fun p =>
    let flags := (rc p).getD {}
    !flags.has_D && availGet st.avail p d && !(decide (p ∈ today)) &&
      decide (st.counts p < base_max_for_person flags + 1))

/-- The row loop of one date of the Group A pass; note that `today` is the
snapshot taken before the row loop and is not refreshed inside it. -/
def groupARows (rc : String → Option Flags) (d : String) (today : List String) :
    List String → EngState → EngState
  | [], st => st
  | rowName :: rest, st =>
    let st' :=
      if 1 ≤ cellLen st.cells (rowName, d) then st
      else pickExtra (rowName, d) (groupACands rc st d today) st
    groupARows rc d today rest st'

/-- assign_extra_group_a: per date, compute assigned_today once, then fill
each Group A row that has no assignee yet. -/
def groupADates (rc : String → Option Flags) :
    List String → EngState → EngState
  | [], st => st
  | d :: rest, st =>
    groupADates rc rest
      (groupARows rc d (todayNames st.cells d) EXTRA_GROUP_A_ROWS st)

/-! ## Extra Group B pass -/

/-- The Group B candidate loop over availability.keys(): skip directors,
those outside the served set, the unavailable, those already assigned today
(snapshot), those at or above base, and for the check-in/ninja row those
without a leader flag. -/
def groupBCands (rc : String → Option Flags) (served : List String)
    (st : EngState) (d : String) (today : List String) (rowName : String) :
    List String :=
  (availKeys st.avail).filter (fun p =>
    let flags := (rc p).getD {}
    !flags.has_D && decide (p ∈ served) && availGet st.avail p d &&
      !(decide (p ∈ today)) &&
      decide (st.counts p < base_max_for_person flags) &&
      (!(strIn "Helping Ninja & Check in" rowName) || is_ukids_leader flags))

/-- The row loop of one date of the Group B pass (same stale snapshot
behaviour as Group A). -/
def groupBRows (rc : String → Option Flags) (served : List String)
    (d : String) (today : List String) :
    List String → EngState → EngState
  | [], st => st
  | rowName :: rest, st =>
    let st' :=
      if 1 ≤ cellLen st.cells (rowName, d) then st
      else pickExtra (rowName, d) (groupBCands rc served st d today rowName) st
    groupBRows rc served d today rest st'

/-- assign_extra_group_b over the dates. -/
def groupBDates (rc : String → Option Flags) (served : List String) :
    List String → EngState → EngState
  | [], st => st
  | d :: rest, st =>
    groupBDates rc served rest
      (groupBRows rc served d (todayNames st.cells d) EXTRA_GROUP_B_ROWS st)

/-! ## assign_roles -/

/-- The run state at the start of assign_roles: empty cells, zero counts. -/
def initState (avail : Avail) : EngState := ⟨[], fun _ => 0, avail⟩

/-- assign_roles as a state transformer: primary pass, Group A pass,
then the served set is computed from all cells and the Group B pass runs. -/
def assignRolesSt (dates : List String) (ldf : List Pref)
    (rc : String → Option Flags) (st : EngState) : Option EngState :=
  match primaryDates ldf rc dates st with
  | none => none
  | some st1 =>
    let st2 := groupADates rc dates st1
    let served := st2.cells.map (fun e => e.2)
    some (groupBDates rc served dates st2)

/-- assign_roles: returns the schedule cells (none models a raised
KeyError from the primary pass). -/
def assign_roles (dates : List String) (ldf : List Pref)
    (rc : String → Option Flags) (avail : Avail) : Option Cells :=
  (assignRolesSt dates ldf rc (initState avail)).map (fun st => st.cells)

/-- The whole engine on input tables: build_long_df then assign_roles. -/
def runEngine (rows : List Row) (cols : List String) (dates : List String)
    (avail : Avail) : Option Cells :=
  let built := build_long_df rows cols
  assign_roles dates built.1 built.2 avail

/-- The long dataframe built from the input table. -/
def builtLdf (rows : List Row) (cols : List String) : List Pref :=
  (build_long_df rows cols).1

/-- The flags map built from the input table. -/
def builtRc (rows : List Row) (cols : List String) : String → Option Flags :=
  (build_long_df rows cols).2

/-- The assignment counter agrees with the number of append events of each
person (assign_count is bumped exactly when a person is appended). -/
def countsOk (st : EngState) : Prop :=
  ∀ p, st.counts p = countEvents st.cells p


/-- The director property of a build state: every record of a person whose
current flags carry has_D is a priority-1 record for an allowed role. -/
def directorProp (st : List Pref × (String → Option Flags)) : Prop :=
  ∀ rec ∈ st.1, ∀ f, st.2 rec.person = some f → f.has_D = true →
    rec.priority = 1 ∧ rec.role ∈ DIRECTOR_ALLOWED_ROLES


/-! ## The primary pass as the spec describes it (for the refinement claim)

The following definitions are written from the words of the spec (section
4.2): candidates are the priority-1 holders of the role, filtered by
availability (a missing entry counts as unavailable) and by count below
the person's base cap; the chosen person is the first element, in list
order, attaining the minimal current count -- which is what "stable
ascending sort by count, ties broken by list order, take the first" means;
an empty pool leaves the cell without assignee and is not an error. -/

/-- Modelled from the spec: the base cap of a person (director cap 1,
default cap 1), looked up in the flags map. -/
def specCap (rc : String → Option Flags) (p : String) : Nat :=
  base_max_for_person ((rc p).getD {})

/-- Modelled from the spec: the first element of the stable ascending sort
by count, i.e. the earliest list element with minimal current count. -/
def specChoose (counts : String → Nat) (l : List String) : Option String :=
  l.find? (fun p => decide (∀ q ∈ l, counts p ≤ counts q))

/-- Modelled from the spec: the eligible persons of one (role, date) cell:
priority-1 preference for the role, available that date (missing entries
unavailable), count below the base cap. -/
def specEligible (df1 : List Pref) (rc : String → Option Flags)
    (st : EngState) (d role : String) : List String :=
  ((df1.filter (fun r => decide (r.role = role))).map (fun r => r.person)).filter
    (fun p => availGet st.avail p d && decide (st.counts p < specCap rc p))

/-- Modelled from the spec: one (role, date) cell of the primary pass. -/
def specRoleStep (df1 : List Pref) (rc : String → Option Flags)
    (d role : String) (st : EngState) : EngState :=
  match specChoose st.counts (specEligible df1 rc st d role) with
  | none => st
  | some chosen =>
    { st with cells := st.cells ++ [((role, d), chosen)],
              counts := bump st.counts chosen }

/-- Modelled from the spec: the distinct priority-1 roles of one date in
alphabetical order. -/
def specRoles (df1 : List Pref) (rc : String → Option Flags) (d : String) :
    List String → EngState → EngState
  | [], st => st
  | role :: rest, st => specRoles df1 rc d rest (specRoleStep df1 rc d role st)

/-- Modelled from the spec: the primary pass, dates in input order. -/
def specDates (ldf : List Pref) (rc : String → Option Flags) :
    List String → EngState → EngState
  | [], st => st
  | d :: rest, st =>
    let df1 := ldf.filter (fun r => decide (r.priority = 1))
    specDates ldf rc rest (specRoles df1 rc d (sortedRoles df1) st)


/-! ## Lemmas about the stable sort -/

lemma insertByLe_ne_nil (le : String → String → Bool) (a : String)
    (l : List String) : insertByLe le a l ≠ [] := by
  cases l with
  | nil => simp [insertByLe]
  | cons b t =>
    simp only [insertByLe]
    split <;> simp

lemma mem_insertByLe {le : String → String → Bool} {a x : String}
    {l : List String} : x ∈ insertByLe le a l ↔ x = a ∨ x ∈ l := by
  induction l with
  | nil => simp [insertByLe]
  | cons b t ih =>
    simp only [insertByLe]
    split
    · simp [List.mem_cons]
    · simp only [List.mem_cons, ih]
      tauto

lemma mem_sortByLe {le : String → String → Bool} {x : String}
    {l : List String} : x ∈ sortByLe le l ↔ x ∈ l := by
  induction l with
  | nil => simp [sortByLe]
  | cons a t ih =>
    simp only [sortByLe, mem_insertByLe, ih, List.mem_cons]

lemma sortByLe_eq_nil_iff {le : String → String → Bool} {l : List String} :
    sortByLe le l = [] ↔ l = [] := by
  cases l with
  | nil => simp [sortByLe]
  | cons a t =>
    simp only [sortByLe]
    constructor
    · intro h; exact absurd h (insertByLe_ne_nil _ _ _)
    · intro h; cases h

lemma find?_congr_mem {p q : String → Bool} {l : List String}
    (h : ∀ x ∈ l, p x = q x) : l.find? p = l.find? q := by
  induction l with
  | nil => rfl
  | cons a t ih =>
    have ha := h a (List.mem_cons_self a t)
    by_cases hp : p a = true
    · rw [List.find?_cons_of_pos _ hp, List.find?_cons_of_pos _ (ha ▸ hp)]
    · have hp' : p a = false := by simpa using hp
      rw [List.find?_cons_of_neg _ (by simp [hp']),
          List.find?_cons_of_neg _ (by simp [← ha, hp'])]
      exact ih (fun x hx => h x (List.mem_cons_of_mem _ hx))

/-- The head of the stable ascending sort by a numeric key is the first
list element attaining the minimum of the key: this is exactly "sort
ascending by current AssignmentCount, ties broken by list order, and take
the first". -/
lemma head_sortByLe (k : String → Nat) (l : List String) :
    (sortByLe (fun a b => decide (k a ≤ k b)) l).head? =
      l.find? (fun a => decide (∀ b ∈ l, k a ≤ k b)) := by
  induction l with
  | nil => rfl
  | cons a t ih =>
    simp only [sortByLe]
    rcases hs : sortByLe (fun a b => decide (k a ≤ k b)) t with _ | ⟨m, rest⟩
    · have ht : t = [] := sortByLe_eq_nil_iff.mp hs
      subst ht
      simp [insertByLe, List.find?]
    · rw [hs] at ih
      have hfind : t.find? (fun x => decide (∀ b ∈ t, k x ≤ k b)) = some m :=
        ih.symm
      have hmem : m ∈ t := List.mem_of_find?_eq_some hfind
      have hmin : ∀ b ∈ t, k m ≤ k b := by simpa using List.find?_some hfind
      by_cases ham : k a ≤ k m
      · have hfirst : (fun x => decide (∀ b ∈ a :: t, k x ≤ k b)) a = true := by
          simp only [decide_eq_true_eq, List.mem_cons]
          rintro b (rfl | hb)
          · exact le_refl _
          · exact le_trans ham (hmin b hb)
        have h1 : List.find? (fun x => decide (∀ b ∈ a :: t, k x ≤ k b)) (a :: t)
            = some a := List.find?_cons_of_pos t hfirst
        rw [h1]
        simp [insertByLe, ham]
      · have hma : k m < k a := lt_of_not_le ham
        have hfail : ¬ ((fun x => decide (∀ b ∈ a :: t, k x ≤ k b)) a = true) := by
          simp only [decide_eq_true_eq]
          intro hall
          exact ham (hall m (List.mem_cons_of_mem _ hmem))
        have h2 : List.find? (fun x => decide (∀ b ∈ a :: t, k x ≤ k b)) (a :: t)
            = List.find? (fun x => decide (∀ b ∈ a :: t, k x ≤ k b)) t :=
          List.find?_cons_of_neg t hfail
        rw [h2]
        have hcong : t.find? (fun x => decide (∀ b ∈ a :: t, k x ≤ k b)) =
            t.find? (fun x => decide (∀ b ∈ t, k x ≤ k b)) := by
          apply find?_congr_mem
          intro x hx
          rw [decide_eq_decide]
          constructor
          · intro hall b hb
            exact hall b (List.mem_cons_of_mem _ hb)
          · intro hall b hb
            rcases List.mem_cons.mp hb with rfl | hb'
            · exact le_of_lt (lt_of_le_of_lt (hall m hmem) hma)
            · exact hall b hb'
        rw [hcong, hfind]
        have hd : (decide (k a ≤ k m)) = false := by simpa using ham
        simp [insertByLe, hd]

/-! ## Basic facts about the engine pieces -/

/-- Both branches of base_max_for_person return 1. -/
lemma base_max_eq_one (f : Flags) : base_max_for_person f = 1 := by
  unfold base_max_for_person
  split <;> rfl

lemma countEvents_append (cells : Cells) (key : String × String) (c p : String) :
    countEvents (cells ++ [(key, c)]) p =
      countEvents cells p + (if p = c then 1 else 0) := by
  unfold countEvents
  rw [List.filter_append, List.length_append]
  by_cases h : c = p
  · subst h
    simp
  · have h' : ¬ (p = c) := fun hh => h hh.symm
    simp [h, h']

lemma filterCap_mem {rc : String → Option Flags} {counts : String → Nat}
    {l l' : List String} (h : filterCap rc counts l = some l') :
    ∀ p ∈ l', p ∈ l ∧ counts p < 1 := by
  induction l generalizing l' with
  | nil =>
    simp only [filterCap, Option.some.injEq] at h
    subst h
    simp
  | cons a t ih =>
    simp only [filterCap] at h
    rcases ha : rc a with _ | f
    · rw [ha] at h; cases h
    · rw [ha] at h
      rcases ht : filterCap rc counts t with _ | t'
      · rw [ht] at h; cases h
      · rw [ht] at h
        simp only [Option.some.injEq] at h
        subst h
        intro p hp
        by_cases hc : counts a < base_max_for_person f
        · rw [if_pos hc] at hp
          rcases List.mem_cons.mp hp with rfl | hp'
          · exact ⟨List.mem_cons_self _ _, by rwa [base_max_eq_one] at hc⟩
          · have := ih ht p hp'
            exact ⟨List.mem_cons_of_mem _ this.1, this.2⟩
        · rw [if_neg hc] at hp
          have := ih ht p hp
          exact ⟨List.mem_cons_of_mem _ this.1, this.2⟩

/-- What one primary (role, date) step can do: nothing, or append one
eligible person with current count below 1 and bump him. -/
lemma primaryRoleStep_master {df1 : List Pref} {rc : String → Option Flags}
    {d role : String} {st st' : EngState}
    (h : primaryRoleStep df1 rc d role st = some st') :
    st' = st ∨ ∃ chosen,
      (∃ r ∈ df1, r.person = chosen ∧ r.role = role) ∧
      availGet st.avail chosen d = true ∧
      st.counts chosen < 1 ∧
      st' = { st with cells := st.cells ++ [((role, d), chosen)],
                      counts := bump st.counts chosen } := by
  simp only [primaryRoleStep] at h
  rcases hfc : filterCap rc st.counts
      (((df1.filter (fun r => decide (r.role = role))).map (fun r => r.person)).filter
        (fun p => availGet st.avail p d)) with _ | cands2
  · rw [hfc] at h; cases h
  · rw [hfc] at h
    dsimp only at h
    rcases hsort : sortByLe (fun a b => decide (st.counts a ≤ st.counts b)) cands2 with
        _ | ⟨chosen, rest⟩
    · rw [hsort] at h
      simp only [Option.some.injEq] at h
      exact Or.inl h.symm
    · rw [hsort] at h
      simp only [Option.some.injEq] at h
      right
      refine ⟨chosen, ?_, ?_, ?_, h.symm⟩
      all_goals {
        have hmemsort : chosen ∈ cands2 := by
          have : chosen ∈ sortByLe (fun a b => decide (st.counts a ≤ st.counts b)) cands2 := by
            rw [hsort]; exact List.mem_cons_self _ _
          exact mem_sortByLe.mp this
        have hcap := filterCap_mem hfc chosen hmemsort
        have hmem1 := hcap.1
        have hav : availGet st.avail chosen d = true :=
          (List.mem_filter.mp hmem1).2
        have hmem0 := List.mem_of_mem_filter hmem1
        first
        | · rcases List.mem_map.mp hmem0 with ⟨r, hr, hrp⟩
            have hr' := List.mem_filter.mp hr
            exact ⟨r, hr'.1, hrp, by simpa using hr'.2⟩
        | exact hav
        | exact hcap.2
      }

/-! ## Run-state invariants -/

lemma countsOk_append {st : EngState} {key : String × String} {c : String}
    (h : countsOk st) :
    countsOk { st with cells := st.cells ++ [(key, c)],
                       counts := bump st.counts c } := by
  intro p
  simp only [bump, countEvents_append]
  by_cases hpc : p = c
  · simp [hpc, h c]
  · simp [hpc, h p]

lemma served_ge_one {st : EngState} (h : countsOk st) :
    ∀ p, p ∈ st.cells.map (fun e => e.2) → 1 ≤ st.counts p := by
  intro p hp
  rcases List.mem_map.mp hp with ⟨e, he, hep⟩
  rw [h p]
  have : e ∈ st.cells.filter (fun e => decide (e.2 = p)) :=
    List.mem_filter.mpr ⟨he, by simp [hep]⟩
  have hne : st.cells.filter (fun e => decide (e.2 = p)) ≠ [] := by
    intro hnil
    rw [hnil] at this
    cases this
  unfold countEvents
  exact Nat.one_le_iff_ne_zero.mpr (fun h0 => hne (List.eq_nil_of_length_eq_zero h0))

/-- What pickExtra can do: nothing, or append one member of the candidate
list and bump him. -/
lemma pickExtra_master (key : String × String) (cands : List String)
    (st : EngState) :
    pickExtra key cands st = st ∨ ∃ chosen, chosen ∈ cands ∧
      pickExtra key cands st =
        { st with cells := st.cells ++ [(key, chosen)],
                  counts := bump st.counts chosen } := by
  unfold pickExtra
  rcases hsort : sortByLe (fun a b => decide (st.counts a ≤ st.counts b)) cands with
      _ | ⟨chosen, rest⟩
  · exact Or.inl rfl
  · right
    refine ⟨chosen, ?_, rfl⟩
    have : chosen ∈ sortByLe (fun a b => decide (st.counts a ≤ st.counts b)) cands := by
      rw [hsort]; exact List.mem_cons_self _ _
    exact mem_sortByLe.mp this

/-- Facts about a member of the Group A candidate list. -/
lemma groupACands_mem {rc : String → Option Flags} {st : EngState}
    {d : String} {today : List String} {p : String}
    (h : p ∈ groupACands rc st d today) :
    ((rc p).getD {}).has_D = false ∧ availGet st.avail p d = true ∧
      p ∉ today ∧ st.counts p < 2 := by
  have := (List.mem_filter.mp h).2
  simp only [Bool.and_eq_true, Bool.not_eq_true', decide_eq_true_eq,
    decide_eq_false_iff_not, base_max_eq_one] at this
  exact ⟨this.1.1.1, this.1.1.2, this.1.2, this.2⟩

/-- Master lemma for the Group A row loop of one date: it only appends
events for rows of the given list on the given date, never a director, it
keeps the availability dict and the count/event agreement, and it keeps
every count at most 2 (the Group A cap is base + 1 = 2). -/
lemma groupARows_master (rc : String → Option Flags) (d : String)
    (today : List String) (rows : List String) (st : EngState) :
    ∃ ext, (groupARows rc d today rows st).cells = st.cells ++ ext ∧
      (groupARows rc d today rows st).avail = st.avail ∧
      (∀ e ∈ ext, e.1.1 ∈ rows ∧ e.1.2 = d ∧ ((rc e.2).getD {}).has_D = false) ∧
      (countsOk st → countsOk (groupARows rc d today rows st)) ∧
      ((∀ p, st.counts p ≤ 2) →
        ∀ p, (groupARows rc d today rows st).counts p ≤ 2) := by
  induction rows generalizing st with
  | nil =>
    exact ⟨[], by simp [groupARows], rfl, by simp, fun h => h, fun h => h⟩
  | cons rowName rest ih =>
    simp only [groupARows]
    by_cases hlen : 1 ≤ cellLen st.cells (rowName, d)
    · rw [if_pos hlen]
      rcases ih st with ⟨ext, h1, h2, h3, h4, h5⟩
      exact ⟨ext, h1, h2,
        fun e he => ⟨List.mem_cons_of_mem _ (h3 e he).1, (h3 e he).2⟩, h4, h5⟩
    · rw [if_neg hlen]
      rcases pickExtra_master (rowName, d) (groupACands rc st d today) st with
          hp | ⟨chosen, hchosen, hp⟩
      · rw [hp]
        rcases ih st with ⟨ext, h1, h2, h3, h4, h5⟩
        exact ⟨ext, h1, h2,
          fun e he => ⟨List.mem_cons_of_mem _ (h3 e he).1, (h3 e he).2⟩, h4, h5⟩
      · rw [hp]
        rcases groupACands_mem hchosen with ⟨hnd, hav, hnt, hlt⟩
        set st' : EngState :=
          { st with cells := st.cells ++ [((rowName, d), chosen)],
                    counts := bump st.counts chosen } with hst'
        rcases ih st' with ⟨ext, h1, h2, h3, h4, h5⟩
        refine ⟨((rowName, d), chosen) :: ext, ?_, ?_, ?_, ?_, ?_⟩
        · rw [h1, hst']
          simp
        · rw [h2, hst']
        · intro e he
          rcases List.mem_cons.mp he with rfl | he'
          · exact ⟨List.mem_cons_self _ _, rfl, hnd⟩
          · exact ⟨List.mem_cons_of_mem _ (h3 e he').1, (h3 e he').2⟩
        · intro hok
          exact h4 (countsOk_append hok)
        · intro hb
          apply h5
          intro p
          rw [hst']
          simp only [bump]
          by_cases hpc : p = chosen
          · subst hpc
            simp
            omega
          · simpa [hpc] using hb p

/-- Master lemma for the whole Group A pass. -/
lemma groupADates_master (rc : String → Option Flags) (dates : List String)
    (st : EngState) :
    ∃ ext, (groupADates rc dates st).cells = st.cells ++ ext ∧
      (groupADates rc dates st).avail = st.avail ∧
      (∀ e ∈ ext, e.1.1 ∈ EXTRA_GROUP_A_ROWS ∧ ((rc e.2).getD {}).has_D = false) ∧
      (countsOk st → countsOk (groupADates rc dates st)) ∧
      ((∀ p, st.counts p ≤ 2) → ∀ p, (groupADates rc dates st).counts p ≤ 2) := by
  induction dates generalizing st with
  | nil =>
    exact ⟨[], by simp [groupADates], rfl, by simp, fun h => h, fun h => h⟩
  | cons d rest ih =>
    simp only [groupADates]
    rcases groupARows_master rc d (todayNames st.cells d) EXTRA_GROUP_A_ROWS st with
        ⟨ext1, h1, h2, h3, h4, h5⟩
    rcases ih (groupARows rc d (todayNames st.cells d) EXTRA_GROUP_A_ROWS st) with
        ⟨ext2, g1, g2, g3, g4, g5⟩
    refine ⟨ext1 ++ ext2, ?_, ?_, ?_, ?_, ?_⟩
    · rw [g1, h1, List.append_assoc]
    · rw [g2, h2]
    · intro e he
      rcases List.mem_append.mp he with he1 | he2
      · exact ⟨(h3 e he1).1, (h3 e he1).2.2⟩
      · exact g3 e he2
    · intro hok
      exact g4 (h4 hok)
    · intro hb
      exact g5 (h5 hb)

/-- Master lemma for the role loop of one primary date: it only appends
persons that hold a record of df1 for the appended role on the given date,
chosen with count 0, it keeps availability and the count/event agreement,
and it keeps every count at most 1 (the primary cap). -/
lemma primaryRoles_master {df1 : List Pref} {rc : String → Option Flags}
    {d : String} (roles : List String) (st st' : EngState)
    (h : primaryRoles df1 rc d roles st = some st') :
    ∃ ext, st'.cells = st.cells ++ ext ∧
      st'.avail = st.avail ∧
      (∀ e ∈ ext, (∃ r ∈ df1, r.person = e.2 ∧ r.role = e.1.1) ∧ e.1.2 = d) ∧
      (countsOk st → countsOk st') ∧
      ((∀ p, st.counts p ≤ 1) → ∀ p, st'.counts p ≤ 1) := by
  induction roles generalizing st with
  | nil =>
    simp only [primaryRoles, Option.some.injEq] at h
    subst h
    exact ⟨[], by simp, rfl, by simp, fun hh => hh, fun hh => hh⟩
  | cons role rest ih =>
    simp only [primaryRoles] at h
    rcases hstep : primaryRoleStep df1 rc d role st with _ | st1
    · rw [hstep] at h; cases h
    · rw [hstep] at h
      dsimp only at h
      rcases primaryRoleStep_master hstep with heq | ⟨chosen, hrec, hav, hlt, hst1⟩
      · subst heq
        rcases ih _ h with ⟨ext, h1, h2, h3, h4, h5⟩
        exact ⟨ext, h1, h2, h3, h4, h5⟩
      · subst hst1
        rcases ih _ h with ⟨ext, h1, h2, h3, h4, h5⟩
        refine ⟨((role, d), chosen) :: ext, ?_, ?_, ?_, ?_, ?_⟩
        · rw [h1]
          simp
        · rw [h2]
        · intro e he
          rcases List.mem_cons.mp he with rfl | he'
          · exact ⟨hrec, rfl⟩
          · exact h3 e he'
        · intro hok
          exact h4 (countsOk_append hok)
        · intro hb
          apply h5
          intro p
          simp only [bump]
          by_cases hpc : p = chosen
          · subst hpc
            simp
            omega
          · simpa [hpc] using hb p

/-- Master lemma for the whole primary pass: every appended event carries a
priority-1 record of the long dataframe for its role. -/
lemma primaryDates_master {ldf : List Pref} {rc : String → Option Flags}
    (dates : List String) (st st' : EngState)
    (h : primaryDates ldf rc dates st = some st') :
    ∃ ext, st'.cells = st.cells ++ ext ∧
      st'.avail = st.avail ∧
      (∀ e ∈ ext, (⟨e.2, e.1.1, 1⟩ : Pref) ∈ ldf) ∧
      (countsOk st → countsOk st') ∧
      ((∀ p, st.counts p ≤ 1) → ∀ p, st'.counts p ≤ 1) := by
  induction dates generalizing st with
  | nil =>
    simp only [primaryDates, Option.some.injEq] at h
    subst h
    exact ⟨[], by simp, rfl, by simp, fun hh => hh, fun hh => hh⟩
  | cons d rest ih =>
    simp only [primaryDates] at h
    by_cases hldf : ldf = []
    · rw [if_pos hldf] at h
      cases h
    rw [if_neg hldf] at h
    rcases hstep : primaryRoles (ldf.filter (fun r => decide (r.priority = 1))) rc d
        (sortedRoles (ldf.filter (fun r => decide (r.priority = 1)))) st with _ | st1
    · rw [hstep] at h; cases h
    · rw [hstep] at h
      dsimp only at h
      rcases primaryRoles_master _ _ _ hstep with ⟨ext1, h1, h2, h3, h4, h5⟩
      rcases ih st1 h with ⟨ext2, g1, g2, g3, g4, g5⟩
      refine ⟨ext1 ++ ext2, ?_, ?_, ?_, ?_, ?_⟩
      · rw [g1, h1, List.append_assoc]
      · rw [g2, h2]
      · intro e he
        rcases List.mem_append.mp he with he1 | he2
        · rcases (h3 e he1).1 with ⟨r, hr, hrp, hrr⟩
          have hr' := List.mem_filter.mp hr
          have hpr : r.priority = 1 := by simpa using hr'.2
          have : r = (⟨e.2, e.1.1, 1⟩ : Pref) := by
            cases r
            simp only [Pref.mk.injEq]
            exact ⟨hrp, hrr, hpr⟩
          rw [← this]
          exact hr'.1
        · exact g3 e he2
      · intro hok
        exact g4 (h4 hok)
      · intro hb
        exact g5 (h5 hb)

/-- A member of the Group B candidate list is in the served set and has
count strictly below 1. -/
lemma groupBCands_mem {rc : String → Option Flags} {served : List String}
    {st : EngState} {d : String} {today : List String} {rowName : String}
    {p : String} (h : p ∈ groupBCands rc served st d today rowName) :
    p ∈ served ∧ st.counts p < 1 := by
  have := (List.mem_filter.mp h).2
  simp only [Bool.and_eq_true, decide_eq_true_eq, base_max_eq_one] at this
  exact ⟨this.1.1.1.1.2, this.1.2⟩

/-- When every served person already has a count of at least 1, the Group B
candidate list is empty. -/
lemma groupBCands_nil {rc : String → Option Flags} {served : List String}
    {st : EngState} {d : String} {today : List String} {rowName : String}
    (h : ∀ p ∈ served, 1 ≤ st.counts p) :
    groupBCands rc served st d today rowName = [] := by
  rcases hc : groupBCands rc served st d today rowName with _ | ⟨p, rest⟩
  · rfl
  · exfalso
    have hp : p ∈ groupBCands rc served st d today rowName := by
      rw [hc]; exact List.mem_cons_self _ _
    rcases groupBCands_mem hp with ⟨hs, hlt⟩
    exact absurd (h p hs) (by omega)

/-- When every served person already has a count of at least 1, the Group B
row loop assigns nothing. -/
lemma groupBRows_noop {rc : String → Option Flags} {served : List String}
    {d : String} {today : List String} (rows : List String) {st : EngState}
    (h : ∀ p ∈ served, 1 ≤ st.counts p) :
    groupBRows rc served d today rows st = st := by
  induction rows with
  | nil => rfl
  | cons rowName rest ih =>
    simp only [groupBRows]
    by_cases hlen : 1 ≤ cellLen st.cells (rowName, d)
    · rw [if_pos hlen]
      exact ih
    · rw [if_neg hlen]
      rw [groupBCands_nil h]
      have hpick : pickExtra (rowName, d) [] st = st := rfl
      rw [hpick]
      exact ih

/-- When every served person already has a count of at least 1, the whole
Group B pass is the identity: it assigns no one. -/
lemma groupBDates_noop {rc : String → Option Flags} {served : List String}
    (dates : List String) {st : EngState}
    (h : ∀ p ∈ served, 1 ≤ st.counts p) :
    groupBDates rc served dates st = st := by
  induction dates with
  | nil => rfl
  | cons d rest ih =>
    simp only [groupBDates]
    rw [groupBRows_noop EXTRA_GROUP_B_ROWS h]
    exact ih

/-- Master lemma for one whole run of assign_roles started, as in the
source, on empty cells and zero counts: the final state is exactly the
post-Group-A state (the Group B pass assigns no one), the cells decompose
into the primary events followed by the Group A events, every primary
event carries a priority-1 record, no Group A event is a director and all
its rows are Group A rows, counts match event multiplicities, the primary
counts are at most 1, the final counts at most 2, and the availability
dict is returned untouched. -/
lemma assignRolesSt_master {dates : List String} {ldf : List Pref}
    {rc : String → Option Flags} {avail : Avail} {st' : EngState}
    (h : assignRolesSt dates ldf rc (initState avail) = some st') :
    ∃ st1 ext2,
      primaryDates ldf rc dates (initState avail) = some st1 ∧
      (∀ e ∈ st1.cells, (⟨e.2, e.1.1, 1⟩ : Pref) ∈ ldf) ∧
      (∀ p, st1.counts p ≤ 1) ∧
      countsOk st1 ∧
      st' = groupADates rc dates st1 ∧
      st'.cells = st1.cells ++ ext2 ∧
      (∀ e ∈ ext2, e.1.1 ∈ EXTRA_GROUP_A_ROWS ∧ ((rc e.2).getD {}).has_D = false) ∧
      (∀ p, st'.counts p ≤ 2) ∧
      countsOk st' ∧
      st'.avail = avail ∧
      groupBDates rc (st'.cells.map (fun e => e.2)) dates st' = st' := by
  simp only [assignRolesSt] at h
  rcases hp : primaryDates ldf rc dates (initState avail) with _ | st1
  · rw [hp] at h; cases h
  · rw [hp] at h
    dsimp only at h
    rcases primaryDates_master dates _ _ hp with ⟨ext1, h1, h2, h3, h4, h5⟩
    have hcells1 : st1.cells = ext1 := by
      rw [h1]; simp [initState]
    have hrec1 : ∀ e ∈ st1.cells, (⟨e.2, e.1.1, 1⟩ : Pref) ∈ ldf := by
      rw [hcells1]; exact h3
    have hok1 : countsOk st1 := by
      apply h4
      intro p
      simp [initState, countEvents]
    have hle1 : ∀ p, st1.counts p ≤ 1 := by
      apply h5
      intro p
      simp [initState]
    rcases groupADates_master rc dates st1 with ⟨ext2, g1, g2, g3, g4, g5⟩
    set st2 := groupADates rc dates st1 with hst2
    have hok2 : countsOk st2 := g4 hok1
    have hle2 : ∀ p, st2.counts p ≤ 2 := g5 (fun p => le_trans (hle1 p) (by omega))
    have hserved : ∀ p ∈ st2.cells.map (fun e => e.2), 1 ≤ st2.counts p :=
      served_ge_one hok2
    have hnoop : groupBDates rc (st2.cells.map (fun e => e.2)) dates st2 = st2 :=
      groupBDates_noop dates hserved
    rw [hnoop] at h
    simp only [Option.some.injEq] at h
    subst h
    have havail : st2.avail = avail := by
      rw [g2, h2]
      rfl
    exact ⟨st1, ext2, rfl, hrec1, hle1, hok1, rfl, g1, g3, hle2, hok2, havail, hnoop⟩

/-! ## Lemmas about build_long_df -/

/-- Every record a row contributes belongs to that person, has a rounded
priority of at least 1 coming from a numeric cell of a role column, and in
a director's row is a priority-1 record for an allowed director role. -/
lemma rowRecords_facts {flags : Flags} {person : String}
    {cell : String → Option Rat} (cols : List String) :
    ∀ rec ∈ rowRecords flags person cell cols,
      rec.person = person ∧ 1 ≤ rec.priority ∧
      (∃ q, cell rec.role = some q ∧ rec.priority = pyRound q ∧ rec.role ∈ cols) ∧
      (flags.has_D = true → rec.priority = 1 ∧ rec.role ∈ DIRECTOR_ALLOWED_ROLES) := by
  induction cols with
  | nil =>
    intro rec h
    cases h
  | cons role rest ih =>
    intro rec h
    simp only [rowRecords] at h
    rcases hq : cell role with _ | q
    · rw [hq] at h
      rcases ih rec h with ⟨ha, hb, ⟨q', hc1, hc2, hc3⟩, hd⟩
      exact ⟨ha, hb, ⟨q', hc1, hc2, List.mem_cons_of_mem _ hc3⟩, hd⟩
    · rw [hq] at h
      dsimp only at h
      by_cases h1 : 1 ≤ pyRound q
      · rw [if_pos h1] at h
        by_cases h2 : flags.has_D = true ∧ (pyRound q ≠ 1 ∨ role ∉ DIRECTOR_ALLOWED_ROLES)
        · rw [if_pos h2] at h
          rcases ih rec h with ⟨ha, hb, ⟨q', hc1, hc2, hc3⟩, hd⟩
          exact ⟨ha, hb, ⟨q', hc1, hc2, List.mem_cons_of_mem _ hc3⟩, hd⟩
        · rw [if_neg h2] at h
          rcases List.mem_cons.mp h with rfl | h'
          · refine ⟨rfl, h1, ⟨q, hq, rfl, List.mem_cons_self _ _⟩, ?_⟩
            intro hD
            push_neg at h2
            exact (h2 hD).imp (fun a => a) (fun a => a)
          · rcases ih rec h' with ⟨ha, hb, ⟨q', hc1, hc2, hc3⟩, hd⟩
            exact ⟨ha, hb, ⟨q', hc1, hc2, List.mem_cons_of_mem _ hc3⟩, hd⟩
      · rw [if_neg h1] at h
        rcases ih rec h with ⟨ha, hb, ⟨q', hc1, hc2, hc3⟩, hd⟩
        exact ⟨ha, hb, ⟨q', hc1, hc2, List.mem_cons_of_mem _ hc3⟩, hd⟩

/-- Every person with a record of the built long dataframe has an entry in
the built flags map. -/
lemma buildRows_covers (cols : List String) :
    ∀ rows st, (∀ rec ∈ st.1, st.2 rec.person ≠ none) →
      ∀ rec ∈ (buildRows cols rows st).1, (buildRows cols rows st).2 rec.person ≠ none := by
  intro rows
  induction rows with
  | nil =>
    intro st h
    exact h
  | cons r rest ih =>
    intro st h
    simp only [buildRows]
    apply ih
    simp only [buildStep]
    by_cases hbad : pyStrip r.name = "" ∨ pyLower (pyStrip r.name) = "nan"
    · rw [if_pos hbad]
      exact h
    · rw [if_neg hbad]
      intro rec hrec
      rcases List.mem_append.mp hrec with h1 | h2
      · by_cases hpp : rec.person = pyStrip r.name
        · simp [hpp]
        · simp only [hpp, if_false]
          exact h rec h1
      · have := (rowRecords_facts cols rec h2).1
        simp [this]

/-- With pairwise distinct (stripped) row names, the row loop of
build_long_df preserves the director property: the flags stored for a
person are the flags that filtered that person's records. -/
lemma buildRows_director (cols : List String) :
    ∀ rows st, (rows.map (fun r => pyStrip r.name)).Nodup →
      (∀ rec ∈ st.1, rec.person ∉ rows.map (fun r => pyStrip r.name)) →
      directorProp st → directorProp (buildRows cols rows st) := by
  intro rows
  induction rows with
  | nil =>
    intro st _ _ hdp
    exact hdp
  | cons r rest ih =>
    intro st hnd hdisj hdp
    simp only [buildRows]
    have hnd' : (rest.map (fun r => pyStrip r.name)).Nodup :=
      (List.nodup_cons.mp (by simpa using hnd)).2
    have hhead : pyStrip r.name ∉ rest.map (fun r => pyStrip r.name) :=
      (List.nodup_cons.mp (by simpa using hnd)).1
    apply ih _ hnd'
    · intro rec hrec
      simp only [buildStep] at hrec
      by_cases hbad : pyStrip r.name = "" ∨ pyLower (pyStrip r.name) = "nan"
      · rw [if_pos hbad] at hrec
        have := hdisj rec hrec
        simp only [List.map_cons, List.mem_cons] at this
        exact fun hc => this (Or.inr hc)
      · rw [if_neg hbad] at hrec
        rcases List.mem_append.mp hrec with h1 | h2
        · have := hdisj rec h1
          simp only [List.map_cons, List.mem_cons] at this
          exact fun hc => this (Or.inr hc)
        · have := (rowRecords_facts cols rec h2).1
          rw [this]
          exact hhead
    · intro rec hrec f hf hD
      simp only [buildStep] at hrec hf
      by_cases hbad : pyStrip r.name = "" ∨ pyLower (pyStrip r.name) = "nan"
      · rw [if_pos hbad] at hrec hf
        exact hdp rec hrec f hf hD
      · rw [if_neg hbad] at hrec hf
        dsimp only at hrec hf
        rcases List.mem_append.mp hrec with h1 | h2
        · have hne : rec.person ≠ pyStrip r.name := by
            intro hc
            have := hdisj rec h1
            simp only [List.map_cons, List.mem_cons] at this
            exact this (Or.inl hc)
          rw [if_neg hne] at hf
          exact hdp rec h1 f hf hD
        · have hper := (rowRecords_facts cols rec h2).1
          rw [if_pos hper] at hf
          have hfe : f = parseFlags r.codes := by
            injection hf.symm
          subst hfe
          exact (rowRecords_facts cols rec h2).2.2.2 hD

/-- Trace of a built record back to its source row. -/
lemma buildRows_trace (cols : List String) :
    ∀ rows st rec, rec ∈ (buildRows cols rows st).1 →
      rec ∈ st.1 ∨ ∃ r ∈ rows,
        ¬(pyStrip r.name = "" ∨ pyLower (pyStrip r.name) = "nan") ∧
        rec.person = pyStrip r.name ∧ 1 ≤ rec.priority ∧
        ∃ q, r.cell rec.role = some q ∧ rec.priority = pyRound q ∧ rec.role ∈ cols := by
  intro rows
  induction rows with
  | nil =>
    intro st rec h
    exact Or.inl h
  | cons r rest ih =>
    intro st rec h
    simp only [buildRows] at h
    rcases ih _ rec h with h1 | ⟨r', hr', hprops⟩
    · simp only [buildStep] at h1
      by_cases hbad : pyStrip r.name = "" ∨ pyLower (pyStrip r.name) = "nan"
      · rw [if_pos hbad] at h1
        exact Or.inl h1
      · rw [if_neg hbad] at h1
        rcases List.mem_append.mp h1 with h2 | h3
        · exact Or.inl h2
        · rcases rowRecords_facts cols rec h3 with ⟨ha, hb, ⟨q, hc1, hc2, hc3⟩, _⟩
          exact Or.inr ⟨r, List.mem_cons_self _ _, hbad, ha, hb, q, hc1, hc2, hc3⟩
    · exact Or.inr ⟨r', List.mem_cons_of_mem _ hr', hprops⟩

/-- Dropping the bad-name rows does not change the result of the row loop. -/
lemma buildRows_filter_good (cols : List String) :
    ∀ rows st, buildRows cols rows st =
      buildRows cols
        (rows.filter (fun r =>
          !(decide (pyStrip r.name = "" ∨ pyLower (pyStrip r.name) = "nan")))) st := by
  intro rows
  induction rows with
  | nil =>
    intro st
    rfl
  | cons r rest ih =>
    intro st
    by_cases hbad : pyStrip r.name = "" ∨ pyLower (pyStrip r.name) = "nan"
    · have hfil : (r :: rest).filter (fun r =>
          !(decide (pyStrip r.name = "" ∨ pyLower (pyStrip r.name) = "nan"))) =
          rest.filter (fun r =>
            !(decide (pyStrip r.name = "" ∨ pyLower (pyStrip r.name) = "nan"))) := by
        simp [List.filter_cons, hbad]
        all_goals tauto
      rw [hfil]
      simp only [buildRows]
      have hstep : buildStep cols st r = st := by
        simp only [buildStep]
        rw [if_pos hbad]
      rw [hstep]
      exact ih st
    · have hfil : (r :: rest).filter (fun r =>
          !(decide (pyStrip r.name = "" ∨ pyLower (pyStrip r.name) = "nan"))) =
          r :: rest.filter (fun r =>
            !(decide (pyStrip r.name = "" ∨ pyLower (pyStrip r.name) = "nan"))) := by
        simp [List.filter_cons, hbad]
        all_goals tauto
      rw [hfil]
      simp only [buildRows]
      exact ih _

/-- When every listed person has an entry in the flags map, the raising cap
comprehension agrees with the spec's total cap filter. -/
lemma filterCap_covered {rc : String → Option Flags} {counts : String → Nat}
    {l : List String} (h : ∀ p ∈ l, rc p ≠ none) :
    filterCap rc counts l =
      some (l.filter (fun p => decide (counts p < specCap rc p))) := by
  induction l with
  | nil => rfl
  | cons a t ih =>
    simp only [filterCap]
    rcases ha : rc a with _ | f
    · exact absurd ha (h a (List.mem_cons_self _ _))
    · rw [ih (fun p hp => h p (List.mem_cons_of_mem _ hp))]
      dsimp only
      have hcap : specCap rc a = base_max_for_person f := by
        simp [specCap, ha]
      rw [List.filter_cons]
      by_cases hlt : counts a < base_max_for_person f
      · rw [if_pos hlt, if_pos (by simp [hcap, hlt])]
      · rw [if_neg hlt, if_neg (by simp [hcap, hlt])]

/-- One primary (role, date) step of the source equals the spec's step when
every record holder of df1 is covered by the flags map. -/
lemma primaryRoleStep_eq_spec {df1 : List Pref} {rc : String → Option Flags}
    {d role : String} {st : EngState}
    (hcov : ∀ r ∈ df1, rc r.person ≠ none) :
    primaryRoleStep df1 rc d role st = some (specRoleStep df1 rc d role st) := by
  simp only [primaryRoleStep, specRoleStep]
  have hcov' : ∀ p ∈ ((df1.filter (fun r => decide (r.role = role))).map
      (fun r => r.person)).filter (fun p => availGet st.avail p d), rc p ≠ none := by
    intro p hp
    rcases List.mem_map.mp (List.mem_of_mem_filter hp) with ⟨r, hr, hrp⟩
    exact hrp ▸ hcov r (List.mem_of_mem_filter hr)
  rw [filterCap_covered hcov']
  dsimp only
  have helig : List.filter (fun p => decide (st.counts p < specCap rc p))
      (List.filter (fun p => availGet st.avail p d)
        ((df1.filter (fun r => decide (r.role = role))).map (fun r => r.person))) =
      specEligible df1 rc st d role := by
    simp only [specEligible, List.filter_filter]
    apply List.filter_congr
    intro x _
    exact Bool.and_comm _ _
  rw [helig]
  have hhead := head_sortByLe st.counts (specEligible df1 rc st d role)
  rcases hsort : sortByLe (fun a b => decide (st.counts a ≤ st.counts b))
      (specEligible df1 rc st d role) with _ | ⟨chosen, rest⟩
  · rw [hsort] at hhead
    simp only [List.head?] at hhead
    rw [specChoose, ← hhead]
  · rw [hsort] at hhead
    simp only [List.head?] at hhead
    rw [specChoose, ← hhead]

/-- The role loop of one primary date equals the spec's role loop under
coverage. -/
lemma primaryRoles_eq_spec {df1 : List Pref} {rc : String → Option Flags}
    {d : String} (roles : List String) (st : EngState)
    (hcov : ∀ r ∈ df1, rc r.person ≠ none) :
    primaryRoles df1 rc d roles st = some (specRoles df1 rc d roles st) := by
  induction roles generalizing st with
  | nil => rfl
  | cons role rest ih =>
    simp only [primaryRoles, specRoles]
    rw [primaryRoleStep_eq_spec hcov]
    exact ih _

/-- The whole primary pass equals the spec's primary pass under coverage of
the long dataframe, provided the dataframe holds at least one record (so
the priority column exists and the empty-DataFrame AttributeError of the
source cannot fire); in particular it then never raises. -/
lemma primaryDates_eq_spec {ldf : List Pref} {rc : String → Option Flags}
    (dates : List String) (st : EngState)
    (hcov : ∀ r ∈ ldf, rc r.person ≠ none) (hne : ldf ≠ []) :
    primaryDates ldf rc dates st = some (specDates ldf rc dates st) := by
  induction dates generalizing st with
  | nil => rfl
  | cons d rest ih =>
    simp only [primaryDates, specDates]
    rw [if_neg hne]
    have hcov1 : ∀ r ∈ ldf.filter (fun r => decide (r.priority = 1)),
        rc r.person ≠ none :=
      fun r hr => hcov r (List.mem_of_mem_filter hr)
    rw [primaryRoles_eq_spec _ _ hcov1]
    exact ih _

/-- Coverage holds for the output of build_long_df. -/
lemma build_covers (rows : List Row) (cols : List String) :
    ∀ r ∈ builtLdf rows cols, builtRc rows cols r.person ≠ none := by
  intro r hr
  exact buildRows_covers cols rows ([], fun _ => none) (by simp) r hr

/-! ## Small helper facts for the claim theorems -/

lemma length_filter_le_of_imp {P Q : ((String × String) × String) → Bool}
    (cs : Cells) (h : ∀ e ∈ cs, P e = true → Q e = true) :
    (cs.filter P).length ≤ (cs.filter Q).length := by
  induction cs with
  | nil => exact le_refl _
  | cons e t ih =>
    rw [List.filter_cons, List.filter_cons]
    by_cases hP : P e = true
    · rw [if_pos hP, if_pos (h e (List.mem_cons_self _ _) hP)]
      simpa using ih (fun x hx => h x (List.mem_cons_of_mem _ hx))
    · rw [if_neg hP]
      have := ih (fun x hx => h x (List.mem_cons_of_mem _ hx))
      by_cases hQ : Q e = true
      · rw [if_pos hQ]
        simp only [List.length_cons]
        omega
      · rw [if_neg hQ]
        exact this

lemma extraA_not_extraB : ∀ role ∈ EXTRA_GROUP_A_ROWS, role ∉ EXTRA_GROUP_B_ROWS := by
  decide

lemma allowed_not_extra : ∀ role ∈ DIRECTOR_ALLOWED_ROLES,
    role ∉ EXTRA_GROUP_A_ROWS ∧ role ∉ EXTRA_GROUP_B_ROWS := by
  decide

/-! ## Claim theorems -/

/-- C5 (amended): in the primary pass, for each date in input order and
each distinct priority-1 role in alphabetical order, the person assigned to
the (role, date) cell is the first element, after a stable ascending sort
by current AssignmentCount with ties broken by list order, of the persons
with a priority-1 preference for the role who are available that date
(missing availability entries count as unavailable) and whose count is
below their base cap; an eligible pool that is empty leaves the cell
unassigned without error -- provided the built preference list holds at
least one record (or there is no service date): the source primary pass
then coincides with the spec-side pass specDates written from those words.
With zero built records and a service date the source pass raises instead
(see the counterexample). -/
theorem C5_primary_matches_spec : ∀ rows cols dates avail,
    builtLdf rows cols ≠ [] ∨ dates = [] →
    primaryDates (builtLdf rows cols) (builtRc rows cols) dates (initState avail) =
      some (specDates (builtLdf rows cols) (builtRc rows cols) dates (initState avail)) := by
  intro rows cols dates avail h
  rcases h with hne | rfl
  · exact primaryDates_eq_spec dates (initState avail) (build_covers rows cols) hne
  · rfl

theorem C5_primary_matches_spec_witness :
    primaryDates
        (builtLdf [⟨"A", "", fun c => if c = "Sound" then some 1 else none⟩] ["Sound"])
        (builtRc [⟨"A", "", fun c => if c = "Sound" then some 1 else none⟩] ["Sound"])
        ["d1"] (initState [("A", [("d1", true)])]) =
      some (specDates
        (builtLdf [⟨"A", "", fun c => if c = "Sound" then some 1 else none⟩] ["Sound"])
        (builtRc [⟨"A", "", fun c => if c = "Sound" then some 1 else none⟩] ["Sound"])
        ["d1"] (initState [("A", [("d1", true)])])) :=
  C5_primary_matches_spec [⟨"A", "", fun c => if c = "Sound" then some 1 else none⟩]
    ["Sound"] ["d1"] [("A", [("d1", true)])] (Or.inl (by decide))

/-- C5 counterexample: as literally stated the claim is false at inputs
where the builder keeps zero records (here one blank-named row, which is
dropped): with one service date the primary pass raises at
long_df.priority -- a record-less DataFrame has no priority column --
instead of leaving the cells empty with no error. -/
theorem C5_counterexample :
    builtLdf [⟨"", "", fun _ => none⟩] ["Sound"] = [] ∧
    primaryDates (builtLdf [⟨"", "", fun _ => none⟩] ["Sound"])
        (builtRc [⟨"", "", fun _ => none⟩] ["Sound"]) ["d1"]
        (initState [("p", [("d1", true)])]) = none :=
  ⟨by decide, rfl⟩

/-- C8 (amended): on every pair of input tables of the modelled shape the
engine (build_long_df followed by the three passes of assign_roles)
terminates with a schedule and raises no exception, provided the builder
kept at least one preference record or the service-date list is empty;
blank names, non-numeric priorities, empty candidate pools and
unrecognized code tokens otherwise degrade to skipping the entry or
leaving the cell empty.  When every record is dropped and a service date
exists, the engine raises (see the counterexample). -/
theorem C8_engine_total : ∀ rows cols dates avail,
    builtLdf rows cols ≠ [] ∨ dates = [] →
    (runEngine rows cols dates avail).isSome = true := by
  intro rows cols dates avail h
  simp only [runEngine, assign_roles, assignRolesSt]
  rcases h with hne | rfl
  · have hcov : ∀ r ∈ (build_long_df rows cols).1,
        (build_long_df rows cols).2 r.person ≠ none := build_covers rows cols
    rw [primaryDates_eq_spec dates (initState avail) hcov hne]
    simp
  · rfl

theorem C8_engine_total_witness :
    (runEngine [⟨"A", "", fun c => if c = "Sound" then some 1 else none⟩] ["Sound"]
        ["d1"] [("A", [("d1", true)])]).isSome = true :=
  C8_engine_total [⟨"A", "", fun c => if c = "Sound" then some 1 else none⟩]
    ["Sound"] ["d1"] [("A", [("d1", true)])] (Or.inl (by decide))

/-- C8 counterexample: as literally stated the claim is false: a table
whose only row has a blank name -- a case the claim covers -- makes
build_long_df keep zero records, and with one service date the primary
pass raises AttributeError at long_df.priority, so the engine returns no
schedule. -/
theorem C8_counterexample :
    runEngine [⟨"", "", fun _ => none⟩] ["Sound"] ["d1"] [("p", [("d1", true)])] = none := by
  decide

/-- C9: the engine is deterministic; two runs of assign_roles on identical
inputs (same date order, same preference list, same flags map, same
availability mapping) return identical schedules. -/
theorem C9_deterministic : ∀ dates dates' ldf ldf' rc rc' avail avail',
    dates = dates' → ldf = ldf' → rc = rc' → avail = avail' →
    assign_roles dates ldf rc avail = assign_roles dates' ldf' rc' avail' := by
  intro dates dates' ldf ldf' rc rc' avail avail' h1 h2 h3 h4
  rw [h1, h2, h3, h4]

theorem C9_deterministic_witness :
    assign_roles ["d1"] [] (fun _ => none) [("p", [("d1", true)])] =
      assign_roles ["d1"] [] (fun _ => none) [("p", [("d1", true)])] :=
  C9_deterministic ["d1"] ["d1"] [] [] (fun _ => none) (fun _ => none)
    [("p", [("d1", true)])] [("p", [("d1", true)])] rfl rfl rfl rfl

/-- C10: the availability mapping is never mutated: an assign_roles run
threaded through the engine state returns the availability dict exactly as
passed in. -/
theorem C10_avail_not_mutated : ∀ dates ldf rc avail st',
    assignRolesSt dates ldf rc (initState avail) = some st' → st'.avail = avail := by
  intro dates ldf rc avail st' h
  rcases assignRolesSt_master h with
    ⟨st1, ext2, _, _, _, _, _, _, _, _, _, havail, _⟩
  exact havail

theorem C10_avail_not_mutated_witness :
    (initState [("p", [("d1", false)])]).avail = [("p", [("d1", false)])] :=
  C10_avail_not_mutated ["d1"] [⟨"p", "Sound", (1 : Int)⟩] (fun _ => some {})
    [("p", [("d1", false)])] (initState [("p", [("d1", false)])]) rfl

/-- C3: for every person the count contributed by the Primary and Group B
passes together never exceeds the base cap 1 (the Group B pass contributes
nothing), and the final count after all three passes never exceeds
base cap + 1 = 2. -/
theorem C3_count_caps : ∀ dates ldf rc avail st1 p,
    primaryDates ldf rc dates (initState avail) = some st1 →
    st1.counts p +
        ((groupBDates rc
            ((groupADates rc dates st1).cells.map (fun e => e.2)) dates
            (groupADates rc dates st1)).counts p -
          (groupADates rc dates st1).counts p) ≤ 1 ∧
      (groupBDates rc
          ((groupADates rc dates st1).cells.map (fun e => e.2)) dates
          (groupADates rc dates st1)).counts p ≤ 2 := by
  intro dates ldf rc avail st1 p h
  rcases primaryDates_master dates _ _ h with ⟨ext1, h1, h2, h3, h4, h5⟩
  have hok1 : countsOk st1 := by
    apply h4
    intro q
    simp [initState, countEvents]
  have hle1 : ∀ q, st1.counts q ≤ 1 := by
    apply h5
    intro q
    simp [initState]
  rcases groupADates_master rc dates st1 with ⟨ext2, g1, g2, g3, g4, g5⟩
  have hok2 : countsOk (groupADates rc dates st1) := g4 hok1
  have hle2 : ∀ q, (groupADates rc dates st1).counts q ≤ 2 :=
    g5 (fun q => le_trans (hle1 q) (by omega))
  have hnoop : groupBDates rc
      ((groupADates rc dates st1).cells.map (fun e => e.2)) dates
      (groupADates rc dates st1) = groupADates rc dates st1 :=
    groupBDates_noop dates (served_ge_one hok2)
  rw [hnoop]
  constructor
  · have : (groupADates rc dates st1).counts p -
        (groupADates rc dates st1).counts p = 0 := Nat.sub_self _
    rw [this]
    simpa using hle1 p
  · exact hle2 p

theorem C3_count_caps_witness :
    (⟨[(("Sound", "d1"), "p")], fun q => if q = "p" then 1 else 0,
          [("p", [("d1", true)])]⟩ : EngState).counts "p" +
        ((groupBDates (fun _ => some {})
            ((groupADates (fun _ => some {}) ["d1"] (⟨[(("Sound", "d1"), "p")], fun q => if q = "p" then 1 else 0,
          [("p", [("d1", true)])]⟩ : EngState)).cells.map (fun e => e.2)) ["d1"]
            (groupADates (fun _ => some {}) ["d1"] (⟨[(("Sound", "d1"), "p")], fun q => if q = "p" then 1 else 0,
          [("p", [("d1", true)])]⟩ : EngState))).counts "p" -
          (groupADates (fun _ => some {}) ["d1"] (⟨[(("Sound", "d1"), "p")], fun q => if q = "p" then 1 else 0,
          [("p", [("d1", true)])]⟩ : EngState)).counts "p") ≤ 1 ∧
      (groupBDates (fun _ => some {})
          ((groupADates (fun _ => some {}) ["d1"] (⟨[(("Sound", "d1"), "p")], fun q => if q = "p" then 1 else 0,
          [("p", [("d1", true)])]⟩ : EngState)).cells.map (fun e => e.2)) ["d1"]
          (groupADates (fun _ => some {}) ["d1"] (⟨[(("Sound", "d1"), "p")], fun q => if q = "p" then 1 else 0,
          [("p", [("d1", true)])]⟩ : EngState))).counts "p" ≤ 2 :=
  C3_count_caps ["d1"] [⟨"p", "Sound", (1 : Int)⟩] (fun _ => some {})
    [("p", [("d1", true)])] (⟨[(("Sound", "d1"), "p")], fun q => if q = "p" then 1 else 0,
          [("p", [("d1", true)])]⟩ : EngState) "p" rfl

lemma filter_nil_of_false {P : ((String × String) × String) → Bool} {l : Cells}
    (h : ∀ e ∈ l, P e = false) : l.filter P = [] := by
  induction l with
  | nil => rfl
  | cons e t ih =>
    rw [List.filter_cons, if_neg (by simp [h e (List.mem_cons_self _ _)])]
    exact ih (fun x hx => h x (List.mem_cons_of_mem _ hx))

/-- Extract the final engine state from a successful runEngine. -/
lemma runEngine_state {rows : List Row} {cols dates : List String}
    {avail : Avail} {cs : Cells} (h : runEngine rows cols dates avail = some cs) :
    ∃ st', assignRolesSt dates (builtLdf rows cols) (builtRc rows cols)
        (initState avail) = some st' ∧ st'.cells = cs := by
  simp only [runEngine, assign_roles] at h
  rcases ha : assignRolesSt dates (build_long_df rows cols).1
      (build_long_df rows cols).2 (initState avail) with _ | st'
  · rw [ha] at h
    cases h
  · rw [ha] at h
    have h' : some st'.cells = some cs := h
    exact ⟨st', ha, by injection h'⟩

/-- C2 (amended): the Group B pass assigns no one.  Invoked by assign_roles
on the post-Group-A state with the served set computed from all cells, it
returns the state unchanged; consequently a Group B cell holds in the final
schedule exactly the names the Primary pass put there (nonempty only when a
role column shares the name of a Group B row). -/
theorem C2_groupB_assigns_none : ∀ dates ldf rc avail st' st1,
    assignRolesSt dates ldf rc (initState avail) = some st' →
    primaryDates ldf rc dates (initState avail) = some st1 →
    groupBDates rc (st'.cells.map (fun e => e.2)) dates st' = st' ∧
    ∀ role d, role ∈ EXTRA_GROUP_B_ROWS →
      namesAt st'.cells (role, d) = namesAt st1.cells (role, d) := by
  intro dates ldf rc avail st' st1 h hp
  rcases assignRolesSt_master h with
    ⟨st1', ext2, hp', hrec1, hle1, hok1, hA, hcells, hext, hle2, hok2, havail, hnoop⟩
  have hst1 : st1' = st1 := by
    rw [hp'] at hp
    injection hp
  subst hst1
  refine ⟨hnoop, ?_⟩
  intro role d hrole
  unfold namesAt
  rw [hcells, List.filter_append]
  have hnil : ext2.filter (fun e => decide (e.1 = (role, d))) = [] := by
    apply filter_nil_of_false
    intro e he
    have hA' := (hext e he).1
    have : e.1 ≠ (role, d) := by
      intro hc
      have : e.1.1 = role := by rw [hc]
      rw [this] at hA'
      exact extraA_not_extraB role hA' hrole
    simp [this]
  rw [hnil, List.append_nil]

theorem C2_groupB_assigns_none_witness :
    groupBDates (fun _ => some {})
        ((initState [("p", [("d1", false)])]).cells.map (fun e => e.2)) ["d1"]
        (initState [("p", [("d1", false)])]) = initState [("p", [("d1", false)])] ∧
    ∀ role d, role ∈ EXTRA_GROUP_B_ROWS →
      namesAt (initState [("p", [("d1", false)])]).cells (role, d) =
        namesAt (initState [("p", [("d1", false)])]).cells (role, d) :=
  C2_groupB_assigns_none ["d1"] [⟨"p", "Sound", (1 : Int)⟩] (fun _ => some {})
    [("p", [("d1", false)])] (initState [("p", [("d1", false)])])
    (initState [("p", [("d1", false)])]) rfl rfl

/-- C2 counterexample: as literally stated the claim is false: a Group B
cell need not be empty in the final schedule, because the Primary pass can
fill it when a role column bears a Group B row name ("Hall Support" here):
the run assigns person A to the Group B cell (Hall Support, d1). -/
theorem C2_counterexample :
    runEngine [⟨"A", "", fun r => if r = "Hall Support" then some 1 else none⟩]
        ["Hall Support"] ["d1"] [("A", [("d1", true)])] =
      some [(("Hall Support", "d1"), "A")] ∧
    "Hall Support" ∈ EXTRA_GROUP_B_ROWS ∧
    namesAt [(("Hall Support", "d1"), "A")] ("Hall Support", "d1") ≠ [] := by
  decide

/-- C7 (amended): every name in a Group B cell of the final schedule was
put there by the Primary pass through a priority-1 preference for exactly
that role; the Group B pass itself assigns no one, so no assignee ever
results from the Group B candidate checks. -/
theorem C7_groupB_cells_from_primary : ∀ rows cols dates avail cs,
    runEngine rows cols dates avail = some cs →
    ∀ role d p, ((role, d), p) ∈ cs → role ∈ EXTRA_GROUP_B_ROWS →
      (⟨p, role, (1 : Int)⟩ : Pref) ∈ builtLdf rows cols := by
  intro rows cols dates avail cs h role d p hmem hrole
  rcases runEngine_state h with ⟨st', hst', hcs⟩
  rcases assignRolesSt_master hst' with
    ⟨st1, ext2, _, hrec1, _, _, _, hcells, hext, _, _, _, _⟩
  rw [← hcs, hcells] at hmem
  rcases List.mem_append.mp hmem with h1 | h2
  · exact hrec1 _ h1
  · exfalso
    have hA' := (hext _ h2).1
    exact extraA_not_extraB role hA' hrole

theorem C7_groupB_cells_from_primary_witness :
    (⟨"B", "Hall Support", (1 : Int)⟩ : Pref) ∈
      builtLdf [⟨"B", "", fun r => if r = "Hall Support" then some 1 else none⟩]
        ["Hall Support"] :=
  C7_groupB_cells_from_primary
    [⟨"B", "", fun r => if r = "Hall Support" then some 1 else none⟩]
    ["Hall Support"] ["d1"] [("B", [("d1", true)])]
    [(("Hall Support", "d1"), "B")] (by decide) "Hall Support" "d1" "B"
    (by decide) (by decide)

/-- C7 counterexample: as literally stated the claim is false: person A,
who carries no leader flag, ends up assigned to the Group B cell
(Helping Ninja & Check in, d1) -- the Primary pass put him there, bypassing
every Group B candidate check. -/
theorem C7_counterexample :
    runEngine [⟨"A", "", fun r => if r = "Helping Ninja & Check in" then some 1 else none⟩]
        ["Helping Ninja & Check in"] ["d1"] [("A", [("d1", true)])] =
      some [(("Helping Ninja & Check in", "d1"), "A")] ∧
    "Helping Ninja & Check in" ∈ EXTRA_GROUP_B_ROWS ∧
    is_ukids_leader ((builtRc
        [⟨"A", "", fun r => if r = "Helping Ninja & Check in" then some 1 else none⟩]
        ["Helping Ninja & Check in"] "A").getD {}) = false := by
  decide

/-- C4: a person whose built flags carry the director token D only ever
occupies schedule cells whose role is in the fixed allowed-director-role
set, always through a priority-1 record of the built preference list, and
never occupies a Group A or Group B cell (the input table has one row per
person, i.e. pairwise distinct stripped names). -/
theorem C4_director_restricted : ∀ rows cols dates avail cs,
    (rows.map (fun r => pyStrip r.name)).Nodup →
    runEngine rows cols dates avail = some cs →
    ∀ role d p f, ((role, d), p) ∈ cs → builtRc rows cols p = some f →
      f.has_D = true →
      role ∈ DIRECTOR_ALLOWED_ROLES ∧
      (⟨p, role, (1 : Int)⟩ : Pref) ∈ builtLdf rows cols ∧
      role ∉ EXTRA_GROUP_A_ROWS ∧ role ∉ EXTRA_GROUP_B_ROWS := by
  intro rows cols dates avail cs hnd h role d p f hmem hrc hD
  rcases runEngine_state h with ⟨st', hst', hcs⟩
  rcases assignRolesSt_master hst' with
    ⟨st1, ext2, _, hrec1, _, _, _, hcells, hext, _, _, _, _⟩
  rw [← hcs, hcells] at hmem
  rcases List.mem_append.mp hmem with h1 | h2
  · have hrec : (⟨p, role, (1 : Int)⟩ : Pref) ∈ builtLdf rows cols := hrec1 _ h1
    have hdir : directorProp (buildRows cols rows ([], fun _ => none)) := by
      apply buildRows_director cols rows ([], fun _ => none) hnd
      · intro rec hr
        cases hr
      · intro rec hr
        cases hr
    have hres := hdir (⟨p, role, (1 : Int)⟩ : Pref) hrec f hrc hD
    exact ⟨hres.2, hrec, (allowed_not_extra role hres.2).1,
      (allowed_not_extra role hres.2).2⟩
  · exfalso
    have hnd' := (hext _ h2).2
    rw [hrc] at hnd'
    simp only [Option.getD] at hnd'
    rw [hnd'] at hD
    cases hD

theorem C4_director_restricted_witness :
    "Special Needs" ∈ DIRECTOR_ALLOWED_ROLES ∧
    (⟨"Dd", "Special Needs", (1 : Int)⟩ : Pref) ∈
      builtLdf [⟨"Dd", "D", fun r => if r = "Special Needs" then some 1 else none⟩]
        ["Special Needs"] ∧
    "Special Needs" ∉ EXTRA_GROUP_A_ROWS ∧ "Special Needs" ∉ EXTRA_GROUP_B_ROWS :=
  C4_director_restricted
    [⟨"Dd", "D", fun r => if r = "Special Needs" then some 1 else none⟩]
    ["Special Needs"] ["d1"] [("Dd", [("d1", true)])]
    [(("Special Needs", "d1"), "Dd")] (by decide) (by decide)
    "Special Needs" "d1" "Dd" ⟨true, false, false, false, false, "D"⟩
    (by decide) (by decide) rfl

/-- C1 (amended): within a single date no person is assigned to more than
two Group A cells -- two is reachable, because the assigned-today snapshot
is taken once per date and not refreshed between the Group A rows -- and no
person is assigned to more than one Group B cell. -/
theorem C1_per_date_cell_bound : ∀ rows cols dates avail cs,
    runEngine rows cols dates avail = some cs →
    ∀ d p,
      (cs.filter (fun e =>
        decide (e.1.1 ∈ EXTRA_GROUP_A_ROWS ∧ e.1.2 = d ∧ e.2 = p))).length ≤ 2 ∧
      (cs.filter (fun e =>
        decide (e.1.1 ∈ EXTRA_GROUP_B_ROWS ∧ e.1.2 = d ∧ e.2 = p))).length ≤ 1 := by
  intro rows cols dates avail cs h d p
  rcases runEngine_state h with ⟨st', hst', hcs⟩
  rcases assignRolesSt_master hst' with
    ⟨st1, ext2, _, hrec1, hle1, hok1, _, hcells, hext, hle2, hok2, _, _⟩
  constructor
  · have himp : ∀ e ∈ cs,
        (fun e => decide (e.1.1 ∈ EXTRA_GROUP_A_ROWS ∧ e.1.2 = d ∧ e.2 = p)) e = true →
        (fun e => decide (e.2 = p)) e = true := by
      intro e _ hP
      simp only [decide_eq_true_eq] at hP ⊢
      exact hP.2.2
    have hlen := length_filter_le_of_imp cs himp
    have hcnt : (cs.filter (fun e => decide (e.2 = p))).length = st'.counts p := by
      rw [← hcs]
      exact (hok2 p).symm
    rw [hcnt] at hlen
    exact le_trans hlen (hle2 p)
  · rw [← hcs, hcells, List.filter_append]
    have hnil : ext2.filter (fun e =>
        decide (e.1.1 ∈ EXTRA_GROUP_B_ROWS ∧ e.1.2 = d ∧ e.2 = p)) = [] := by
      apply filter_nil_of_false
      intro e he
      have hA' := (hext e he).1
      have : e.1.1 ∉ EXTRA_GROUP_B_ROWS := extraA_not_extraB _ hA'
      simp [this]
    rw [hnil, List.append_nil]
    have himp : ∀ e ∈ st1.cells,
        (fun e => decide (e.1.1 ∈ EXTRA_GROUP_B_ROWS ∧ e.1.2 = d ∧ e.2 = p)) e = true →
        (fun e => decide (e.2 = p)) e = true := by
      intro e _ hP
      simp only [decide_eq_true_eq] at hP ⊢
      exact hP.2.2
    have hlen := length_filter_le_of_imp st1.cells himp
    have hcnt : (st1.cells.filter (fun e => decide (e.2 = p))).length = st1.counts p :=
      (hok1 p).symm
    rw [hcnt] at hlen
    exact le_trans hlen (hle1 p)

theorem C1_per_date_cell_bound_witness :
    (([(("Sound", "d1"), "A"), (("Setup", "d1"), "q"), (("Info Desk", "d1"), "q")] : Cells).filter (fun e =>
      decide (e.1.1 ∈ EXTRA_GROUP_A_ROWS ∧ e.1.2 = "d1" ∧ e.2 = "q"))).length ≤ 2 ∧
    (([(("Sound", "d1"), "A"), (("Setup", "d1"), "q"), (("Info Desk", "d1"), "q")] : Cells).filter (fun e =>
      decide (e.1.1 ∈ EXTRA_GROUP_B_ROWS ∧ e.1.2 = "d1" ∧ e.2 = "q"))).length ≤ 1 :=
  C1_per_date_cell_bound [⟨"A", "", fun c => if c = "Sound" then some 1 else none⟩] ["Sound"] ["d1"]
    [("A", [("d1", true)]), ("q", [("d1", true)])]
    [(("Sound", "d1"), "A"), (("Setup", "d1"), "q"), (("Info Desk", "d1"), "q")] (by decide) "d1" "q"

/-- C1 counterexample: as literally stated the claim is false: person A
holds the only primary record (so the run completes), and person q, present
only in the availability dict, is assigned to both the (Setup, d1) and the
(Info Desk, d1) Group A cells of the same date, because the assigned-today
snapshot is computed once per date and not refreshed inside the Group A
row loop. -/
theorem C1_counterexample :
    runEngine [⟨"A", "", fun c => if c = "Sound" then some 1 else none⟩] ["Sound"] ["d1"]
        [("A", [("d1", true)]), ("q", [("d1", true)])] =
      some [(("Sound", "d1"), "A"), (("Setup", "d1"), "q"), (("Info Desk", "d1"), "q")] ∧
    "Setup" ∈ EXTRA_GROUP_A_ROWS ∧ "Info Desk" ∈ EXTRA_GROUP_A_ROWS ∧
    ("Setup" : String) ≠ "Info Desk" ∧
    "q" ∈ namesAt [(("Sound", "d1"), "A"), (("Setup", "d1"), "q"), (("Info Desk", "d1"), "q")] ("Setup", "d1") ∧
    "q" ∈ namesAt [(("Sound", "d1"), "A"), (("Setup", "d1"), "q"), (("Info Desk", "d1"), "q")] ("Info Desk", "d1") := by
  decide

/-- C6: the preference builder drops every row whose stripped name is empty
or reads "nan" (the stringified unparseable value), records nothing for a
missing or non-numeric role cell, rounds numeric priorities with Python's
round, and keeps a record only when the rounded priority is at least 1. -/
theorem C6_builder_row_handling : ∀ rows cols,
    build_long_df rows cols =
      build_long_df (rows.filter (fun r =>
        !(decide (pyStrip r.name = "" ∨ pyLower (pyStrip r.name) = "nan")))) cols ∧
    ∀ rec ∈ builtLdf rows cols,
      1 ≤ rec.priority ∧
      ∃ r ∈ rows, ¬(pyStrip r.name = "" ∨ pyLower (pyStrip r.name) = "nan") ∧
        rec.person = pyStrip r.name ∧
        ∃ q, r.cell rec.role = some q ∧ rec.priority = pyRound q := by
  intro rows cols
  constructor
  · exact buildRows_filter_good cols rows ([], fun _ => none)
  · intro rec hrec
    rcases buildRows_trace cols rows ([], fun _ => none) rec hrec with
        h1 | ⟨r, hr, hbad, hper, hpr, q, hq1, hq2, _⟩
    · cases h1
    · exact ⟨hpr, r, hr, hbad, hper, q, hq1, hq2⟩

theorem C6_builder_row_handling_witness :
    1 ≤ (⟨"A", "Sound", (1 : Int)⟩ : Pref).priority ∧
    ∃ r ∈ ([⟨"A", "", fun c => if c = "Sound" then some 1 else none⟩,
            ⟨" ", "", fun _ => none⟩] : List Row),
      ¬(pyStrip r.name = "" ∨ pyLower (pyStrip r.name) = "nan") ∧
      (⟨"A", "Sound", (1 : Int)⟩ : Pref).person = pyStrip r.name ∧
      ∃ q, r.cell (⟨"A", "Sound", (1 : Int)⟩ : Pref).role = some q ∧
        (⟨"A", "Sound", (1 : Int)⟩ : Pref).priority = pyRound q :=
  (C6_builder_row_handling
    [⟨"A", "", fun c => if c = "Sound" then some 1 else none⟩,
     ⟨" ", "", fun _ => none⟩] ["Sound"]).2
    ⟨"A", "Sound", (1 : Int)⟩ (by decide)
